import Mathlib

/-!
A shallow embedding of the pydaas-sql query-composition and generic-service
layer (src/pydaas_sql/database.py and src/pydaas_sql/services.py).

Records are values of an abstract type; a predicate expression is a boolean
function on records, which is how the storage engine evaluates a WHERE
clause.  A select statement is embedded as the data accumulated by the
query builders (where-clauses, order keys, offset, limit) together with an
executable semantics over a table held as a list of records.  The session is
modelled after the repository's own factory (database.py builds its
sessionmaker with the default autoflush behaviour), so a staged deletion is
visible to every subsequent query of the same session: deleting an instance
removes it from the table immediately.
-/

namespace Pydaas

/-- A predicate expression over records of type α, as evaluated by the engine. -/
def Pred (α : Type) : Type := α → Bool

/-- sqlmodel's variadic AND of expressions. -/
def smAnd {α : Type} (es : List (Pred α)) : Pred α := fun r => es.all (fun p => p r)

/-- sqlmodel's variadic OR of expressions. -/
def smOr {α : Type} (es : List (Pred α)) : Pred α := fun r => es.any (fun p => p r)

/-- The data of a select statement accumulated by the query fragment builders:
where-clauses, order keys, and the offset/limit window. -/
structure Stm (α : Type) where
  whereClauses : List (Pred α)
  orderKeys : List (α → Int)
  off : Option Int
  lim : Option Int

/-- sqlmodel's select(Model): the base statement with no restriction. -/
def selectStm {α : Type} : Stm α := ⟨[], [], none, none⟩

/-- stm.where(*expressions): append where-clauses. -/
def Stm.whereC {α : Type} (stm : Stm α) (es : List (Pred α)) : Stm α :=
  { stm with whereClauses := stm.whereClauses ++ es }

/-- stm.order_by(*expressions): append order keys. -/
def Stm.orderByC {α : Type} (stm : Stm α) (ks : List (α → Int)) : Stm α :=
  { stm with orderKeys := stm.orderKeys ++ ks }

/-- stm.offset(o). -/
def Stm.offsetC {α : Type} (stm : Stm α) (o : Int) : Stm α :=
  { stm with off := some o }

/-- stm.limit(l). -/
def Stm.limitC {α : Type} (stm : Stm α) (l : Int) : Stm α :=
  { stm with lim := some l }

/-- Insert one element into a list sorted by le (helper for the engine's
ORDER BY semantics). -/
def insertKey {α : Type} (le : α → α → Bool) (a : α) : List α → List α
  | [] => [a]
  | b :: bs => if le b a then b :: insertKey le a bs else a :: b :: bs

/-- Stable insertion sort (helper for the engine's ORDER BY semantics). -/
def sortByKey {α : Type} (le : α → α → Bool) : List α → List α
  | [] => []
  | a :: rest => insertKey le a (sortByKey le rest)

/-- Lexicographic comparison along a list of sort keys. -/
def lexLe {α : Type} : List (α → Int) → α → α → Bool
  | [], _, _ => true
  | k :: ks, a, b =>
    if k a < k b then true else if k a = k b then lexLe ks a b else false

/-- ORDER BY: with no keys the engine keeps its default order (the table
order here); otherwise sort by the keys lexicographically. -/
def applySort {α : Type} (keys : List (α → Int)) (l : List α) : List α :=
  match keys with
  | [] => l
  | _ :: _ => sortByKey (lexLe keys) l

/-- Execute a statement against a table: keep the rows satisfying every
where-clause, order them, then apply OFFSET and LIMIT. -/
def Stm.run {α : Type} (stm : Stm α) (db : List α) : List α :=
  let matched := db.filter (fun r => stm.whereClauses.all (fun p => p r))
  let ordered := applySort stm.orderKeys matched
  let windowed :=
    match stm.off with
    | none => ordered
    | some o => ordered.drop o.toNat
  match stm.lim with
  | none => windowed
  | some l => windowed.take l.toNat

/-- database.py: class Filter — an ordered sequence of predicate expressions. -/
structure Filter (α : Type) where
  expressions : List (Pred α)

/-- Filter.and_(*expressions): a new Filter with the receiver's expressions
followed by the given ones. -/
def Filter.and_ {α : Type} (f : Filter α) (es : List (Pred α)) : Filter α :=
  Filter.mk (f.expressions ++ es)

/-- Filter.or_(*expressions): OR together the AND of the receiver's
expressions (when nonempty) and the AND of the given expressions (when
nonempty); with both sides empty, an empty Filter. -/
def Filter.or_ {α : Type} (f : Filter α) (es : List (Pred α)) : Filter α :=
  let ors : List (Pred α) :=
    (if f.expressions.isEmpty then [] else [smAnd f.expressions]) ++
    (if es.isEmpty then [] else [smAnd es])
  if ors.isEmpty then Filter.mk [] else Filter.mk [smOr ors]

/-- Filter.apply(stm): stm.where(*expressions). -/
def Filter.apply {α : Type} (f : Filter α) (stm : Stm α) : Stm α :=
  stm.whereC f.expressions

/-- Filter.__getitem__(index). -/
def Filter.getitem {α : Type} (f : Filter α) (i : Nat) : Option (Pred α) :=
  f.expressions.get? i

/-- A record matches a filter iff every contained predicate expression holds
of it — the condition under which Stm.run keeps the record. -/
def Filter.matches {α : Type} (f : Filter α) (r : α) : Bool :=
  f.expressions.all (fun p => p r)

/-- Matching against an optional filter: a missing filter matches everything. -/
def matchesOpt {α : Type} : Option (Filter α) → α → Bool
  | none, _ => true
  | some f, r => f.matches r

/-- database.py: class Sorting — an ordered sequence of order keys. -/
structure Sorting (α : Type) where
  expressions : List (α → Int)

/-- sqlmodel's desc(expression): invert the key's order. -/
def smDesc {α : Type} (k : α → Int) : α → Int := fun r => - k r

/-- Sorting.asc_(*expressions). -/
def Sorting.asc_ {α : Type} (s : Sorting α) (ks : List (α → Int)) : Sorting α :=
  Sorting.mk (s.expressions ++ ks)

/-- Sorting.desc_(*expressions). -/
def Sorting.desc_ {α : Type} (s : Sorting α) (ks : List (α → Int)) : Sorting α :=
  Sorting.mk (s.expressions ++ ks.map smDesc)

/-- Sorting.apply(stm): stm.order_by(*expressions). -/
def Sorting.apply {α : Type} (s : Sorting α) (stm : Stm α) : Stm α :=
  stm.orderByC s.expressions

/-- database.py: class Pagination — page, page_size and the fetch_one_more
flag. -/
structure Pagination where
  page : Int
  page_size : Int
  fetch_one_more : Bool

/-- Pagination.__init__: clamps page and page_size to at least 1. -/
def Pagination.make (page page_size : Int) (fetch_one_more : Bool) : Pagination :=
  ⟨max page 1, max page_size 1, fetch_one_more⟩

/-- Pagination.apply(stm): offset (page-1)*page_size and limit page_size,
plus one more when fetch_one_more is set. -/
def Pagination.apply {α : Type} (p : Pagination) (stm : Stm α) : Stm α :=
  let offset := (p.page - 1) * p.page_size
  let limit := if p.fetch_one_more then p.page_size + 1 else p.page_size
  (stm.offsetC offset).limitC limit

/-- The fault raised by one_or_none on more than one row. -/
inductive DbError where
  | multipleResultsFound
  deriving DecidableEq

/-- A model instance: an assignment of values to named fields. -/
abbrev Row (V : Type) := List (String × V)

/-- Read an attribute of an instance by field name. -/
def getattr {V : Type} : Row V → String → Option V
  | [], _ => none
  | (k, v) :: rest, f => if k = f then some v else getattr rest f

/-- setattr(instance, field, value): overwrite the named field, adding it
when it is not yet present. -/
def setattr {V : Type} (r : Row V) (f : String) (v : V) : Row V :=
  if r.any (fun kv => decide (kv.1 = f)) then
    r.map (fun kv => if kv.1 = f then (f, v) else kv)
  else r ++ [(f, v)]

/-- The model capability: the schema's declared field names and its
primary-key column names in order. -/
structure ModelSchema where
  fields : List String
  pkCols : List String

/-- A partial-update model object: its own declared fields, per-field
defaults, per-field explicitly-set flags, and per-field values. -/
structure PatchModel (V : Type) where
  fields : List String
  dflt : String → V
  isSet : String → Bool
  value : String → V

/-- pydantic's model_dump with exclude_unset and exclude_defaults: a field is
emitted iff it was explicitly set and its value differs from its default. -/
def PatchModel.dump {V : Type} [DecidableEq V] (p : PatchModel V) : List (String × V) :=
  p.fields.filterMap (fun f =>
    if p.isSet f ∧ p.value f ≠ p.dflt f then some (f, p.value f) else none)

/-- The data argument of update: either a plain mapping or a partial-update
model object. -/
inductive PatchData (V : Type) where
  | dict (kv : List (String × V))
  | model (p : PatchModel V)

/-- The session state: the visible table of rows and the number of commits
issued so far. -/
structure SessionState (V : Type) where
  table : List (Row V)
  commits : Nat

/-- Replace the first occurrence of a row (the flushed UPDATE of a mutated
persistent instance). -/
def replaceFirst {β : Type} [DecidableEq β] : List β → β → β → List β
  | [], _, _ => []
  | x :: xs, a, b => if x = a then b :: xs else x :: replaceFirst xs a b

namespace DataService

/-- services.py: DataService.search — select over the model, then apply
filter, sorting and pagination in that order when present, and execute. -/
def search {α : Type} (db : List α) (filter : Option (Filter α))
    (sorting : Option (Sorting α)) (pagination : Option Pagination) : List α :=
  let stm : Stm α := selectStm
  let stm := match filter with | some f => f.apply stm | none => stm
  let stm := match sorting with | some s => s.apply stm | none => stm
  let stm := match pagination with | some p => p.apply stm | none => stm
  stm.run db

/-- services.py: DataService.get — one_or_none over the filtered select:
none for zero rows, the row for exactly one, MultipleResultsFound otherwise. -/
def get {α : Type} (db : List α) (filter : Filter α) : Except DbError (Option α) :=
  match (filter.apply selectStm).run db with
  | [] => Except.ok none
  | [x] => Except.ok (some x)
  | _ => Except.error DbError.multipleResultsFound

/-- services.py: DataService._update_model — dump a model patch excluding
unset and default-equal fields, then for each field of the service's model
schema present in the values mapping, overwrite the instance attribute. -/
def _update_model {V : Type} [DecidableEq V] (M : ModelSchema) (inst : Row V)
    (values : PatchData V) : Row V :=
  let kv : List (String × V) :=
    match values with
    | PatchData.dict kv => kv
    | PatchData.model p => p.dump
  M.fields.foldl (fun acc f =>
    match getattr kv f with
    | some v => setattr acc f v
    | none => acc) inst

/-- services.py: DataService.update — apply the partial update, re-register
the instance (the flush replaces the row) and commit. -/
def update {V : Type} [DecidableEq V] (M : ModelSchema) (st : SessionState V)
    (inst : Row V) (data : PatchData V) : Row V × SessionState V :=
  let inst2 := _update_model M inst data
  (inst2, { table := replaceFirst st.table inst inst2, commits := st.commits + 1 })

/-- services.py: DataService.delete — stage a deletion; under the session's
autoflush it disappears from every subsequent query; no commit is issued. -/
def delete {V : Type} [DecidableEq V] (st : SessionState V) (inst : Row V) :
    SessionState V :=
  { st with table := st.table.erase inst }

/-- services.py: DataService.get_by_id — conjoin one equality predicate per
primary-key column against the positional id components. -/
def by_id_filter {V : Type} [DecidableEq V] (M : ModelSchema) (id : List V) :
    Filter (Row V) :=
  (M.pkCols.zip id).foldl
    (fun f cv => f.and_ [fun r => decide (getattr r cv.1 = some cv.2)])
    (Filter.mk [])

/-- services.py: DataService.get_by_id — get with the primary-key filter. -/
def get_by_id {V : Type} [DecidableEq V] (M : ModelSchema) (st : SessionState V)
    (id : List V) : Except DbError (Option (Row V)) :=
  get st.table (by_id_filter M id)

/-- services.py: DataService.update_by_id — None (state untouched) when the
id matches nothing, otherwise update the found instance. -/
def update_by_id {V : Type} [DecidableEq V] (M : ModelSchema) (st : SessionState V)
    (id : List V) (data : PatchData V) :
    Except DbError (Option (Row V) × SessionState V) :=
  match get_by_id M st id with
  | Except.error e => Except.error e
  | Except.ok none => Except.ok (none, st)
  | Except.ok (some inst) =>
    let r := update M st inst data
    Except.ok (some r.1, r.2)

/-- services.py: DataService.delete_by_id — False (state untouched) when the
id matches nothing, otherwise delete the found instance and return True. -/
def delete_by_id {V : Type} [DecidableEq V] (M : ModelSchema) (st : SessionState V)
    (id : List V) : Except DbError (Bool × SessionState V) :=
  match get_by_id M st id with
  | Except.error e => Except.error e
  | Except.ok none => Except.ok (false, st)
  | Except.ok (some inst) => Except.ok (true, delete st inst)

/-- services.py: DataService._get_model_chunks — fetch page after page with
fetch_one_more; when chunk_size + 1 rows come back, trim the sentinel, yield
and continue, otherwise yield and stop.  The fuel argument bounds the number
of pages; none models a run that exceeds it (the generator not terminating
within the given fuel). -/
def _get_model_chunksAux {α : Type} (db : List α) (f : Option (Filter α))
    (chunk_size : Int) : Nat → Int → Option (List (List α))
  | 0, _ => none
  | fuel + 1, page =>
    let chunk := search db f none (some (Pagination.make page chunk_size true))
    if (chunk.length : Int) = chunk_size + 1 then
      (_get_model_chunksAux db f chunk_size fuel (page + 1)).map
        (fun rest => chunk.dropLast :: rest)
    else
      some [chunk]

/-- The whole chunk sequence of _get_model_chunks starting at page 1, with
fuel that is sufficient whenever the generator terminates at all on the
fixed table db. -/
def _get_model_chunks {α : Type} (db : List α) (f : Option (Filter α))
    (chunk_size : Int) : Option (List (List α)) :=
  _get_model_chunksAux db f chunk_size (db.length + 2) 1

/-- services.py: DataService.bulk_delete — drive the chunked iterator and
delete every record of each chunk; each next page is searched on the table
as shrunk by the deletions already flushed.  Returns the count of deleted
records and the final table. -/
def bulk_deleteAux {α : Type} [DecidableEq α] (f : Filter α) (chunk_size : Int) :
    Nat → Int → List α → Nat → Option (Nat × List α)
  | 0, _, _, _ => none
  | fuel + 1, page, db, count =>
    let chunkFull := search db (some f) none (some (Pagination.make page chunk_size true))
    if (chunkFull.length : Int) = chunk_size + 1 then
      bulk_deleteAux f chunk_size fuel (page + 1)
        (chunkFull.dropLast.foldl (fun d r => d.erase r) db)
        (count + chunkFull.dropLast.length)
    else
      some (count + chunkFull.length, chunkFull.foldl (fun d r => d.erase r) db)

/-- bulk_delete from page 1 with fuel sufficient for every terminating run. -/
def bulk_delete {α : Type} [DecidableEq α] (f : Filter α) (chunk_size : Int)
    (db : List α) : Option (Nat × List α) :=
  bulk_deleteAux f chunk_size (db.length + 2) 1 db 0

end DataService

/-- Cutting a list into chunks of cs, the last chunk possibly shorter, a
whole list when it already fits (never an empty tail chunk after a full
one). -/
def chunkify {α : Type} (cs : Nat) (l : List α) : List (List α) :=
  if h : l.length ≤ cs ∨ cs = 0 then [l]
  else l.take cs :: chunkify cs (l.drop cs)
termination_by l.length
decreasing_by
  push_neg at h
  simp only [List.length_drop]
  omega

/-- The heap of Filter objects: object identity is the index into the store,
object state is the expression sequence.  Method calls on an object read the
store and may allocate, mirroring the Python methods, which construct new
Filter objects. -/
abbrev FilterStore (α : Type) := List (List (Pred α))

/-- Dereference a Filter object. -/
def derefFilter {α : Type} (s : FilterStore α) (i : Nat) : List (Pred α) :=
  s.getD i []

/-- Allocate a fresh Filter object holding the given expressions. -/
def allocFilter {α : Type} (s : FilterStore α) (es : List (Pred α)) :
    FilterStore α × Nat :=
  (s ++ [es], s.length)

/-- The method call self.and_(*es) on the heap: read self, build the
combined expressions, allocate the new Filter. -/
def filterAndM {α : Type} (s : FilterStore α) (self : Nat) (es : List (Pred α)) :
    FilterStore α × Nat :=
  allocFilter s ((Filter.mk (derefFilter s self)).and_ es).expressions

/-- The method call self.or_(*es) on the heap. -/
def filterOrM {α : Type} (s : FilterStore α) (self : Nat) (es : List (Pred α)) :
    FilterStore α × Nat :=
  allocFilter s ((Filter.mk (derefFilter s self)).or_ es).expressions

/-- One combinator invocation on a Filter object. -/
inductive FilterCall (α : Type) where
  | and (es : List (Pred α))
  | or (es : List (Pred α))

/-- Run a sequence of combinator calls against one receiver object,
accumulating the heap. -/
def runFilterCalls {α : Type} (s : FilterStore α) (self : Nat) :
    List (FilterCall α) → FilterStore α
  | [] => s
  | c :: cs =>
    runFilterCalls
      (match c with
       | FilterCall.and es => (filterAndM s self es).1
       | FilterCall.or es => (filterOrM s self es).1)
      self cs

/-- Whether _get_model_chunks terminates on the given table: some fuel
suffices to exhaust the generator. -/
def chunksTerminate {α : Type} (db : List α) (f : Option (Filter α))
    (chunk_size : Int) : Prop :=
  ∃ fuel, (DataService._get_model_chunksAux db f chunk_size fuel 1).isSome

/-- Concrete predicate over integer records: the record is positive
(the spec's Item.price > 0 with a record reduced to its price). -/
def posPred : Pred Int := fun r => decide (0 < r)

/-- Concrete filter holding posPred. -/
def posFilter : Filter Int := Filter.mk [posPred]

/-- Concrete predicate over integer records: the record is below five. -/
def ltFivePred : Pred Int := fun r => decide (r < 5)

/-- Concrete schema with fields x and y. -/
def exSchemaXY : ModelSchema := ⟨["x", "y"], ["x"]⟩

/-- Concrete schema with the single field x. -/
def exSchemaX : ModelSchema := ⟨["x"], ["x"]⟩

/-- Concrete patch model that explicitly sets x to a value equal to its
declared default. -/
def exPatchDefault : PatchModel Int :=
  ⟨["x"], fun _ => 0, fun _ => true, fun _ => 0⟩

/-- Concrete instance with x bound to 5. -/
def exInstX : Row Int := [("x", 5)]

/-- Concrete instance with x bound to 1 and y bound to 2. -/
def exInstXY : Row Int := [("x", 1), ("y", 2)]

/-- Concrete mapping patch supplying only x. -/
def exKV : List (String × Int) := [("x", 7)]

/-- Concrete schema whose primary key is the id column. -/
def exSchemaId : ModelSchema := ⟨["id", "x"], ["id"]⟩

/-- Concrete session holding one row with id 1. -/
def exStateOne : SessionState Int := ⟨[[("id", 1), ("x", 5)]], 0⟩

/-- Concrete Filter heap holding one object with posPred. -/
def exStore : FilterStore Int := [[posPred]]

/-- Concrete combinator call sequence: one and_, one or_. -/
def exCalls : List (FilterCall Int) :=
  [FilterCall.and [ltFivePred], FilterCall.or [ltFivePred]]

/-! ## Helper lemmas -/

/-- Executing a search that applies only a filter yields exactly the rows
matching it, in table order. -/
theorem run_filter_only {α : Type} (db : List α) (f : Filter α) :
    (f.apply selectStm).run db = db.filter f.matches := by
  simp only [Filter.apply, Stm.whereC, selectStm, Stm.run, applySort,
    List.nil_append]
  rfl

/-- Reduction of a one-page search through Pagination.make with
fetch_one_more: drop the offset, take page_size + 1 matching rows. -/
theorem search_page {α : Type} (db : List α) (f : Option (Filter α)) (p cs : Int) :
    DataService.search db f none (some (Pagination.make p cs true)) =
      ((db.filter (matchesOpt f)).drop ((max p 1 - 1) * max cs 1).toNat).take
        (max cs 1 + 1).toNat := by
  cases f with
  | none =>
    have h : List.filter (matchesOpt (none : Option (Filter α))) db = db := by
      rw [show matchesOpt (none : Option (Filter α)) = fun _ => true from rfl]
      simp
    simp [DataService.search, Pagination.make, Pagination.apply, Stm.offsetC,
      Stm.limitC, selectStm, Stm.run, applySort]
    rw [h]
  | some f =>
    simp [DataService.search, Filter.apply, Stm.whereC, Pagination.make,
      Pagination.apply, Stm.offsetC, Stm.limitC, selectStm, Stm.run, applySort]
    rfl

/-- get handled through the matching rows of the table. -/
theorem get_eq {α : Type} (db : List α) (f : Filter α) :
    DataService.get db f =
      match db.filter f.matches with
      | [] => Except.ok none
      | [x] => Except.ok (some x)
      | _ => Except.error DbError.multipleResultsFound := by
  unfold DataService.get
  rw [run_filter_only]

/-! ## Claim theorems -/

/-- Claim C5: for all integers p and s, Pagination(p, s, fetch_one_more)
stores page = max(p, 1) ≥ 1 and page_size = max(s, 1) ≥ 1, and apply
restricts the query to offset (page - 1) * page_size with limit page_size,
plus one when fetch_one_more is set, leaving the rest of the query alone. -/
theorem claim_C5 {α : Type} (p s : Int) (fom : Bool) (q : Stm α) :
    (Pagination.make p s fom).page = max p 1
    ∧ 1 ≤ (Pagination.make p s fom).page
    ∧ (Pagination.make p s fom).page_size = max s 1
    ∧ 1 ≤ (Pagination.make p s fom).page_size
    ∧ ((Pagination.make p s fom).apply q).off =
        some (((Pagination.make p s fom).page - 1) * (Pagination.make p s fom).page_size)
    ∧ ((Pagination.make p s fom).apply q).lim =
        some (if fom then (Pagination.make p s fom).page_size + 1
              else (Pagination.make p s fom).page_size)
    ∧ ((Pagination.make p s fom).apply q).whereClauses = q.whereClauses
    ∧ ((Pagination.make p s fom).apply q).orderKeys = q.orderKeys :=
  ⟨rfl, le_max_right p 1, rfl, le_max_right s 1, rfl, rfl, rfl, rfl⟩

/-- Claim C8: the empty Filter applied to a query is the identity; and_
concatenates the predicate sequences; and_ with no arguments returns a
Filter equal to the receiver; the combined filter matches a record iff the
receiver's predicates and the given ones all hold. -/
theorem claim_C8 {α : Type} (q : Stm α) (f : Filter α) (ps : List (Pred α)) (r : α) :
    (Filter.mk []).apply q = q
    ∧ (f.and_ ps).expressions = f.expressions ++ ps
    ∧ f.and_ [] = f
    ∧ (f.and_ ps).matches r = (f.matches r && (Filter.mk ps).matches r) := by
  refine ⟨?_, rfl, ?_, ?_⟩
  · simp [Filter.apply, Stm.whereC]
  · simp [Filter.and_]
  · simp [Filter.and_, Filter.matches, List.all_append]

/-- Claim C4: or_ denotes the logical OR of the conjunction of the
receiver's predicates and the conjunction of the given ones; an empty
receiver leaves exactly the given side, empty arguments leave exactly the
receiver, and with both sides empty the result matches everything. -/
theorem claim_C4 {α : Type} (f : Filter α) (es : List (Pred α)) (r : α) :
    (f.expressions ≠ [] → es ≠ [] →
      (f.or_ es).matches r = (f.matches r || (Filter.mk es).matches r))
    ∧ (f.expressions = [] → (f.or_ es).matches r = (Filter.mk es).matches r)
    ∧ (es = [] → (f.or_ es).matches r = f.matches r)
    ∧ (f.expressions = [] → es = [] → (f.or_ es).matches r = true) := by
  obtain ⟨fes⟩ := f
  refine ⟨fun h1 h2 => ?_, fun h1 => ?_, fun h1 => ?_, fun h1 h2 => ?_⟩
  · cases fes with
    | nil => exact absurd rfl h1
    | cons a as =>
      cases es with
      | nil => exact absurd rfl h2
      | cons b bs => simp [Filter.or_, Filter.matches, smAnd, smOr]
  · simp only at h1
    subst h1
    cases es with
    | nil => simp [Filter.or_, Filter.matches]
    | cons b bs => simp [Filter.or_, Filter.matches, smAnd, smOr]
  · subst h1
    cases fes with
    | nil => simp [Filter.or_, Filter.matches]
    | cons a as => simp [Filter.or_, Filter.matches, smAnd, smOr]
  · simp only at h1
    subst h1
    subst h2
    simp [Filter.or_, Filter.matches]

/-- Witness for claim C4: both sides nonempty at a concrete record. -/
theorem claim_C4_wit :
    posFilter.expressions ≠ []
    ∧ [ltFivePred] ≠ ([] : List (Pred Int))
    ∧ (posFilter.or_ [ltFivePred]).matches 7 =
        (posFilter.matches 7 || (Filter.mk [ltFivePred]).matches 7) :=
  ⟨by simp [posFilter], by simp,
    (claim_C4 posFilter [ltFivePred] 7).1 (by simp [posFilter]) (by simp)⟩

/-- Claim C6: get returns the unique matching record when exactly one row
matches, absence when none does, and faults with MultipleResultsFound when
two or more match. -/
theorem claim_C6 {α : Type} (db : List α) (f : Filter α) :
    (db.filter f.matches = [] → DataService.get db f = Except.ok none)
    ∧ (∀ x, db.filter f.matches = [x] → DataService.get db f = Except.ok (some x))
    ∧ (2 ≤ (db.filter f.matches).length →
        DataService.get db f = Except.error DbError.multipleResultsFound) := by
  rw [get_eq]
  refine ⟨fun h => ?_, fun x h => ?_, fun h => ?_⟩
  · rw [h]
  · rw [h]
  · rcases hf : db.filter f.matches with _ | ⟨x, _ | ⟨y, l⟩⟩
    · rw [hf] at h; simp at h
    · rw [hf] at h; simp at h
    · rfl

/-- Witness for claim C6: zero, one and two matching rows. -/
theorem claim_C6_wit :
    DataService.get ([] : List Int) posFilter = Except.ok none
    ∧ DataService.get [(5 : Int)] posFilter = Except.ok (some 5)
    ∧ DataService.get [(5 : Int), 6] posFilter =
        Except.error DbError.multipleResultsFound :=
  ⟨(claim_C6 [] posFilter).1 (by decide),
   (claim_C6 [5] posFilter).2.1 5 (by decide),
   (claim_C6 [5, 6] posFilter).2.2 (by decide)⟩

/-- Appending a fresh object to the Filter heap does not change any live
object. -/
theorem derefFilter_append {α : Type} (s : FilterStore α) (x : List (Pred α))
    (i : Nat) (h : i < s.length) :
    derefFilter (s ++ [x]) i = derefFilter s i := by
  simp [derefFilter, List.getD, List.getElem?_append_left h]

/-- Any sequence of combinator calls leaves the receiver object's stored
expressions untouched. -/
theorem runFilterCalls_deref {α : Type} (calls : List (FilterCall α))
    (s : FilterStore α) (self : Nat) (h : self < s.length) :
    derefFilter (runFilterCalls s self calls) self = derefFilter s self := by
  induction calls generalizing s with
  | nil => rfl
  | cons c cs ih =>
    cases c with
    | and es =>
      show derefFilter (runFilterCalls ((filterAndM s self es).1) self cs) self =
        derefFilter s self
      have hlen : self < ((filterAndM s self es).1).length := by
        simp only [filterAndM, allocFilter, List.length_append, List.length_cons,
          List.length_nil]
        omega
      rw [ih _ hlen]
      exact derefFilter_append s _ self h
    | or es =>
      show derefFilter (runFilterCalls ((filterOrM s self es).1) self cs) self =
        derefFilter s self
      have hlen : self < ((filterOrM s self es).1).length := by
        simp only [filterOrM, allocFilter, List.length_append, List.length_cons,
          List.length_nil]
        omega
      rw [ih _ hlen]
      exact derefFilter_append s _ self h

/-- Claim C9: and_ and or_ allocate fresh Filter objects and never mutate
the receiver: after any sequence of combinator calls, the receiver's
expressions, its indexing and its apply behave exactly as before. -/
theorem claim_C9 {α : Type} (s : FilterStore α) (self : Nat)
    (calls : List (FilterCall α)) (h : self < s.length) :
    derefFilter (runFilterCalls s self calls) self = derefFilter s self
    ∧ (∀ i, (Filter.mk (derefFilter (runFilterCalls s self calls) self)).getitem i =
        (Filter.mk (derefFilter s self)).getitem i)
    ∧ (∀ q : Stm α,
        (Filter.mk (derefFilter (runFilterCalls s self calls) self)).apply q =
        (Filter.mk (derefFilter s self)).apply q) := by
  have hd := runFilterCalls_deref calls s self h
  exact ⟨hd, fun i => by rw [hd], fun q => by rw [hd]⟩

/-- Witness for claim C9: a one-object heap driven through an and_ and an
or_ call. -/
theorem claim_C9_wit :
    0 < exStore.length
    ∧ derefFilter (runFilterCalls exStore 0 exCalls) 0 = derefFilter exStore 0 :=
  ⟨by simp [exStore], (claim_C9 exStore 0 exCalls (by simp [exStore])).1⟩

/-- Setting a field makes it read back as the written value (replace branch). -/
theorem getattr_map_set {V : Type} (r : Row V) (f : String) (v : V)
    (h : r.any (fun kv => decide (kv.1 = f)) = true) :
    getattr (r.map (fun kv => if kv.1 = f then (f, v) else kv)) f = some v := by
  induction r with
  | nil => simp at h
  | cons kv rest ih =>
    obtain ⟨k, w⟩ := kv
    rw [List.map_cons]
    by_cases hk : k = f
    · subst hk
      have hhead : (if ((k, w) : String × V).1 = k then ((k : String), v) else (k, w)) =
          ((k : String), v) := if_pos rfl
      rw [hhead]
      simp [getattr]
    · have hhead : (if ((k, w) : String × V).1 = f then ((f : String), v) else (k, w)) =
          (k, w) := if_neg hk
      rw [hhead]
      simp only [List.any_cons, Bool.or_eq_true, decide_eq_true_eq] at h
      rcases h with h | h
      · exact absurd h hk
      · simp only [getattr]
        rw [if_neg hk]
        exact ih h

/-- Setting a field makes it read back as the written value (append branch). -/
theorem getattr_append_missing {V : Type} (r : Row V) (f : String) (v : V) :
    getattr r f = none → getattr (r ++ [(f, v)]) f = some v := by
  induction r with
  | nil => intro _; simp [getattr]
  | cons kv rest ih =>
    obtain ⟨k, w⟩ := kv
    intro h
    by_cases hk : k = f
    · simp [getattr, hk] at h
    · simp only [getattr, hk, if_false, List.cons_append] at *
      simp [getattr, hk, ih h]

/-- A row without the field reads none for it. -/
theorem getattr_none_of_not_any {V : Type} (r : Row V) (f : String)
    (h : r.any (fun kv => decide (kv.1 = f)) = false) : getattr r f = none := by
  induction r with
  | nil => rfl
  | cons kv rest ih =>
    obtain ⟨k, w⟩ := kv
    simp only [List.any_cons, Bool.or_eq_false_iff, decide_eq_false_iff_not] at h
    simp [getattr, h.1, ih h.2]

/-- setattr followed by getattr of the same field yields the written value. -/
theorem getattr_setattr_self {V : Type} (r : Row V) (f : String) (v : V) :
    getattr (setattr r f v) f = some v := by
  cases hb : r.any (fun kv => decide (kv.1 = f)) with
  | true =>
    unfold setattr
    rw [if_pos hb]
    exact getattr_map_set r f v hb
  | false =>
    unfold setattr
    rw [if_neg (by simp [hb])]
    exact getattr_append_missing r f v (getattr_none_of_not_any r f hb)

/-- Setting another field does not change this field's value (replace
branch). -/
theorem getattr_map_set_ne {V : Type} (r : Row V) (f g : String) (v : V)
    (h : g ≠ f) :
    getattr (r.map (fun kv => if kv.1 = g then (g, v) else kv)) f = getattr r f := by
  induction r with
  | nil => rfl
  | cons kv rest ih =>
    obtain ⟨k, w⟩ := kv
    rw [List.map_cons]
    by_cases hk : k = g
    · subst hk
      have hhead : (if ((k, w) : String × V).1 = k then ((k : String), v) else (k, w)) =
          ((k : String), v) := if_pos rfl
      rw [hhead]
      simp only [getattr]
      rw [if_neg h, if_neg h]
      exact ih
    · have hhead : (if ((k, w) : String × V).1 = g then ((g : String), v) else (k, w)) =
          (k, w) := if_neg hk
      rw [hhead]
      simp only [getattr]
      rw [ih]

/-- Setting another field does not change this field's value (append
branch). -/
theorem getattr_append_ne {V : Type} (r : Row V) (f g : String) (v : V)
    (h : g ≠ f) :
    getattr (r ++ [(g, v)]) f = getattr r f := by
  induction r with
  | nil => simp [getattr, h]
  | cons kv rest ih =>
    obtain ⟨k, w⟩ := kv
    simp only [List.cons_append, getattr, List.append_eq, ih]

/-- setattr of one field leaves every other field's value unchanged. -/
theorem getattr_setattr_ne {V : Type} (r : Row V) (f g : String) (v : V)
    (h : g ≠ f) :
    getattr (setattr r g v) f = getattr r f := by
  cases hb : r.any (fun kv => decide (kv.1 = g)) with
  | true =>
    unfold setattr
    rw [if_pos hb]
    exact getattr_map_set_ne r f g v h
  | false =>
    unfold setattr
    rw [if_neg (by simp [hb])]
    exact getattr_append_ne r f g v h

/-- The _update_model fold leaves a field untouched when the field is not
among the schema fields it walks. -/
theorem foldl_update_not_mem {V : Type} [DecidableEq V] (kv : List (String × V))
    (fs : List String) (acc : Row V) (f : String) (hf : f ∉ fs) :
    getattr (fs.foldl (fun acc g =>
      match getattr kv g with
      | some v => setattr acc g v
      | none => acc) acc) f = getattr acc f := by
  induction fs generalizing acc with
  | nil => rfl
  | cons g gs ih =>
    have hgf : g ≠ f := fun e => hf (e ▸ List.mem_cons_self g gs)
    have hf2 : f ∉ gs := fun m => hf (List.mem_cons_of_mem g m)
    simp only [List.foldl_cons]
    cases hkv : getattr kv g with
    | none => simp only [hkv]; exact ih _ hf2
    | some v =>
      simp only [hkv]
      rw [ih _ hf2, getattr_setattr_ne _ _ _ _ hgf]

/-- The _update_model fold writes the supplied value for every schema field
present in the values mapping. -/
theorem foldl_update_mem {V : Type} [DecidableEq V] (kv : List (String × V))
    (fs : List String) (acc : Row V) (f : String) (v : V) (hmem : f ∈ fs)
    (hkv : getattr kv f = some v) :
    getattr (fs.foldl (fun acc g =>
      match getattr kv g with
      | some v => setattr acc g v
      | none => acc) acc) f = some v := by
  induction fs generalizing acc with
  | nil => simp at hmem
  | cons g gs ih =>
    simp only [List.foldl_cons]
    by_cases hgs : f ∈ gs
    · exact ih _ hgs
    · have hfg : f = g := by
        rcases List.mem_cons.mp hmem with h | h
        · exact h
        · exact absurd h hgs
      subst hfg
      simp only [hkv]
      rw [foldl_update_not_mem kv gs _ f hgs, getattr_setattr_self]

/-- The _update_model fold leaves a field untouched when the values mapping
does not supply it. -/
theorem foldl_update_none {V : Type} [DecidableEq V] (kv : List (String × V))
    (fs : List String) (acc : Row V) (f : String) (hkv : getattr kv f = none) :
    getattr (fs.foldl (fun acc g =>
      match getattr kv g with
      | some v => setattr acc g v
      | none => acc) acc) f = getattr acc f := by
  induction fs generalizing acc with
  | nil => rfl
  | cons g gs ih =>
    simp only [List.foldl_cons]
    by_cases hg : g = f
    · subst hg
      simp only [hkv]
      exact ih _
    · cases hkv2 : getattr kv g with
      | none => simp only [hkv2]; exact ih _
      | some v =>
        simp only [hkv2]
        rw [ih _, getattr_setattr_ne _ _ _ _ hg]

/-- What a dumped patch model supplies for a field: its value exactly when
the field is declared, explicitly set, and different from its default. -/
theorem dump_lookup {V : Type} [DecidableEq V] (dflt : String → V)
    (isSet : String → Bool) (value : String → V) (fs : List String) (f : String) :
    getattr (fs.filterMap (fun g =>
      if isSet g ∧ value g ≠ dflt g then some (g, value g) else none)) f =
      if f ∈ fs ∧ isSet f = true ∧ value f ≠ dflt f
      then some (value f) else none := by
  induction fs with
  | nil => simp [getattr]
  | cons g gs ih =>
    simp only [List.filterMap_cons]
    by_cases hcg : isSet g = true ∧ value g ≠ dflt g
    · rw [if_pos hcg]
      by_cases hg : g = f
      · subst hg
        simp [getattr, hcg]
      · have h1 : getattr ((g, value g) :: List.filterMap (fun g =>
            if isSet g = true ∧ value g ≠ dflt g then some (g, value g) else none)
              gs) f =
            getattr (List.filterMap (fun g =>
              if isSet g = true ∧ value g ≠ dflt g then some (g, value g) else none)
                gs) f := by
          simp only [getattr]
          rw [if_neg hg]
        rw [h1, ih]
        refine (if_congr ?_ rfl rfl).symm
        constructor
        · rintro ⟨hm, hr⟩
          rcases List.mem_cons.mp hm with he | hm2
          · exact absurd he.symm hg
          · exact ⟨hm2, hr⟩
        · rintro ⟨hm, hr⟩
          exact ⟨List.mem_cons_of_mem g hm, hr⟩
    · rw [if_neg hcg, ih]
      by_cases hg : g = f
      · subst hg
        have h1 : ¬(g ∈ gs ∧ isSet g = true ∧ value g ≠ dflt g) :=
          fun hh => hcg hh.2
        have h2 : ¬(g ∈ g :: gs ∧ isSet g = true ∧ value g ≠ dflt g) :=
          fun hh => hcg hh.2
        rw [if_neg h1, if_neg h2]
      · refine (if_congr ?_ rfl rfl).symm
        constructor
        · rintro ⟨hm, hr⟩
          rcases List.mem_cons.mp hm with he | hm2
          · exact absurd he.symm hg
          · exact ⟨hm2, hr⟩
        · rintro ⟨hm, hr⟩
          exact ⟨List.mem_cons_of_mem g hm, hr⟩

/-- Claim C2 (amended): for a mapping patch, update overwrites exactly the
schema fields the mapping supplies — including values equal to defaults —
and leaves the rest untouched; a model-object patch is first dumped with
unset and default-equal fields excluded, so an explicitly set value equal
to the patch model's declared default is dropped rather than written. -/
theorem claim_C2 {V : Type} [DecidableEq V] (M : ModelSchema) (inst : Row V)
    (kv : List (String × V)) (p : PatchModel V) (f : String) :
    (∀ v, f ∈ M.fields → getattr kv f = some v →
      getattr (DataService._update_model M inst (PatchData.dict kv)) f = some v)
    ∧ (f ∉ M.fields ∨ getattr kv f = none →
      getattr (DataService._update_model M inst (PatchData.dict kv)) f =
        getattr inst f)
    ∧ DataService._update_model M inst (PatchData.model p) =
        DataService._update_model M inst (PatchData.dict p.dump)
    ∧ getattr p.dump f =
        (if f ∈ p.fields ∧ p.isSet f = true ∧ p.value f ≠ p.dflt f
         then some (p.value f) else none) := by
  refine ⟨fun v hmem hkv => foldl_update_mem kv M.fields inst f v hmem hkv,
    fun h => ?_, rfl, dump_lookup p.dflt p.isSet p.value p.fields f⟩
  rcases h with h | h
  · exact foldl_update_not_mem kv M.fields inst f h
  · exact foldl_update_none kv M.fields inst f h

/-- Witness for claim C2: the mapping patch overwrites the supplied field x
and leaves the unsupplied field y unchanged. -/
theorem claim_C2_wit :
    ("x" ∈ exSchemaXY.fields)
    ∧ getattr exKV "x" = some (7 : Int)
    ∧ getattr (DataService._update_model exSchemaXY exInstXY
        (PatchData.dict exKV)) "x" = some (7 : Int)
    ∧ getattr (DataService._update_model exSchemaXY exInstXY
        (PatchData.dict exKV)) "y" = getattr exInstXY "y" :=
  ⟨by decide, by decide,
   (claim_C2 exSchemaXY exInstXY exKV exPatchDefault "x").1 7 (by decide) (by decide),
   (claim_C2 exSchemaXY exInstXY exKV exPatchDefault "y").2.1 (Or.inr (by decide))⟩

/-- Counterexample to claim C2 as stated: a model-object patch explicitly
setting x to a value equal to its declared default does not overwrite the
instance's x, which keeps its old value 5 instead of 0. -/
theorem claim_C2_cex :
    DataService._update_model exSchemaX exInstX (PatchData.model exPatchDefault) =
      [("x", (5 : Int))]
    ∧ getattr (DataService._update_model exSchemaX exInstX
        (PatchData.model exPatchDefault)) "x" ≠ some (0 : Int) := by
  exact ⟨by decide, by decide⟩

/-- Claim C7: when the id matches no record, update_by_id returns None and
delete_by_id returns False, neither faults, and the session is left exactly
as it was — same table, same commit count. -/
theorem claim_C7 {V : Type} [DecidableEq V] (M : ModelSchema) (st : SessionState V)
    (id : List V) (data : PatchData V)
    (h : st.table.filter (DataService.by_id_filter M id).matches = []) :
    DataService.update_by_id M st id data = Except.ok (none, st)
    ∧ DataService.delete_by_id M st id = Except.ok (false, st) := by
  have hget : DataService.get_by_id M st id = Except.ok none := by
    unfold DataService.get_by_id
    rw [get_eq, h]
  constructor
  · unfold DataService.update_by_id
    rw [hget]
  · unfold DataService.delete_by_id
    rw [hget]

/-- Witness for claim C7: an id that matches no row of a one-row table. -/
theorem claim_C7_wit :
    exStateOne.table.filter
      (DataService.by_id_filter exSchemaId [(2 : Int)]).matches = []
    ∧ DataService.update_by_id exSchemaId exStateOne [(2 : Int)]
        (PatchData.dict []) = Except.ok (none, exStateOne)
    ∧ DataService.delete_by_id exSchemaId exStateOne [(2 : Int)] =
        Except.ok (false, exStateOne) :=
  ⟨by decide,
   (claim_C7 exSchemaId exStateOne [2] (PatchData.dict []) (by decide)).1,
   (claim_C7 exSchemaId exStateOne [2] (PatchData.dict []) (by decide)).2⟩

/-- Claim C1 (evaluation at the failing input): with two matching records
and chunk_size 1, bulk_delete returns 1 — not 2 — and leaves the second
record in the table, so a subsequent unfiltered search still returns it.
The page counter advances while the deletions shrink the paginated set, so
the final matching record is skipped. -/
theorem claim_C1 :
    DataService.bulk_delete posFilter 1 [(1 : Int), 2] = some (1, [2])
    ∧ DataService.search [(2 : Int)] none none none = [2]
    ∧ (1 : Nat) ≠ 2 :=
  ⟨by decide, by decide, by decide⟩

/-- With chunk_size -1 and an empty matching set, every page comes back
empty and the length test 0 = chunk_size + 1 keeps succeeding, so the
generator never stops, whatever the fuel. -/
theorem chunksAux_diverges {α : Type} (f : Option (Filter α)) :
    ∀ (fuel : Nat) (page : Int),
      DataService._get_model_chunksAux ([] : List α) f (-1) fuel page = none := by
  intro fuel
  induction fuel with
  | zero => intro page; rfl
  | succ n ih =>
    intro page
    simp only [DataService._get_model_chunksAux]
    rw [search_page]
    simp [ih]

/-- Counterexample to claim C10 as stated: at chunk_size -1 with no matching
records, _get_model_chunks does not terminate at all. -/
theorem claim_C10_cex :
    ¬ chunksTerminate ([] : List Int) (some posFilter) (-1) := by
  rintro ⟨fuel, hs⟩
  rw [chunksAux_diverges (some posFilter) fuel 1] at hs
  simp at hs

/-- One page of the chunked scan for a positive chunk size: drop the
previous pages, fetch chunk_size + 1 rows. -/
theorem search_page_pos {α : Type} (db : List α) (f : Option (Filter α)) (p : Int)
    (cs : Nat) (hp : 1 ≤ p) (hcs : 1 ≤ cs) :
    DataService.search db f none (some (Pagination.make p (cs : Int) true)) =
      ((db.filter (matchesOpt f)).drop ((p - 1) * (cs : Int)).toNat).take (cs + 1) := by
  rw [search_page]
  have h1 : max p 1 = p := max_eq_left hp
  have h2 : max (cs : Int) 1 = (cs : Int) := max_eq_left (by exact_mod_cast hcs)
  rw [h1, h2]
  congr 1

/-- For a positive chunk size, the generator started at any page with enough
fuel produces exactly the chunkification of the not-yet-visited matching
rows. -/
theorem chunksAux_pos {α : Type} (db : List α) (f : Option (Filter α)) (cs : Nat)
    (hcs : 1 ≤ cs) :
    ∀ (fuel : Nat) (page : Int), 1 ≤ page →
      ((db.filter (matchesOpt f)).drop (((page - 1) * (cs : Int)).toNat)).length + 1 ≤ fuel →
      DataService._get_model_chunksAux db f (cs : Int) fuel page =
        some (chunkify cs
          ((db.filter (matchesOpt f)).drop (((page - 1) * (cs : Int)).toNat))) := by
  intro fuel
  induction fuel with
  | zero => intro page hp hfuel; omega
  | succ n ih =>
    intro page hp hfuel
    simp only [DataService._get_model_chunksAux]
    rw [search_page_pos db f page cs hp hcs]
    by_cases hlen : ((db.filter (matchesOpt f)).drop
        (((page - 1) * (cs : Int)).toNat)).length ≤ cs
    · rw [if_neg (by
        simp only [List.length_take]
        intro he
        have : min (cs + 1) ((db.filter (matchesOpt f)).drop
            (((page - 1) * (cs : Int)).toNat)).length = cs + 1 := by exact_mod_cast he
        omega)]
      rw [List.take_of_length_le (by omega)]
      rw [chunkify, dif_pos (Or.inl hlen)]
    · push_neg at hlen
      have htake : (((db.filter (matchesOpt f)).drop
          (((page - 1) * (cs : Int)).toNat)).take (cs + 1)).length = cs + 1 := by
        simp only [List.length_take]
        omega
      rw [if_pos (by exact_mod_cast htake)]
      have hoff : ((page + 1 - 1) * (cs : Int)).toNat =
          (((page - 1) * (cs : Int)).toNat) + cs := by
        have he : (page + 1 - 1) * (cs : Int) = (page - 1) * (cs : Int) + (cs : Int) := by
          ring
        rw [he, Int.toNat_add (mul_nonneg (by omega) (by positivity)) (by positivity)]
        simp
      have hbound : ((db.filter (matchesOpt f)).drop
          (((page + 1 - 1) * (cs : Int)).toNat)).length + 1 ≤ n := by
        rw [hoff]
        simp only [List.length_drop] at *
        omega
      rw [ih (page + 1) (by omega) hbound]
      have hdrop : (db.filter (matchesOpt f)).drop (((page + 1 - 1) * (cs : Int)).toNat) =
          ((db.filter (matchesOpt f)).drop (((page - 1) * (cs : Int)).toNat)).drop cs := by
        rw [hoff, List.drop_drop]
      rw [hdrop]
      have hdl : ((((db.filter (matchesOpt f)).drop
            (((page - 1) * (cs : Int)).toNat))).take (cs + 1)).dropLast =
          ((db.filter (matchesOpt f)).drop (((page - 1) * (cs : Int)).toNat)).take cs := by
        rw [List.dropLast_eq_take, htake, List.take_take]
        congr 1
        omega
      rw [Option.map_some']
      rw [hdl]
      rw [show chunkify cs ((db.filter (matchesOpt f)).drop
          (((page - 1) * (cs : Int)).toNat)) =
        ((db.filter (matchesOpt f)).drop (((page - 1) * (cs : Int)).toNat)).take cs ::
          chunkify cs (((db.filter (matchesOpt f)).drop
            (((page - 1) * (cs : Int)).toNat)).drop cs) from by
        rw [chunkify, dif_neg (by omega)]]

/-- For a positive chunk size, _get_model_chunks yields exactly the
chunkification of the matching rows. -/
theorem chunks_pos {α : Type} (db : List α) (f : Option (Filter α)) (cs : Nat)
    (hcs : 1 ≤ cs) :
    DataService._get_model_chunks db f (cs : Int) =
      some (chunkify cs (db.filter (matchesOpt f))) := by
  have h0 : ((((1 : Int)) - 1) * (cs : Int)).toNat = 0 := by norm_num
  have := chunksAux_pos db f cs hcs (db.length + 2) 1 (le_refl 1) (by
    rw [h0]
    simp only [List.drop_zero]
    have := List.length_filter_le (matchesOpt f) db
    omega)
  rw [h0] at this
  simp only [List.drop_zero] at this
  exact this

/-- Claim C3: for chunk_size ≥ 1 and exactly 3*chunk_size matching records,
_get_model_chunks yields exactly three chunks of length chunk_size with no
empty fourth chunk; for 3*chunk_size + 1 matching records it yields four
chunks, three full and one singleton; together the chunks are exactly the
matching rows in order. -/
theorem claim_C3 {α : Type} (db : List α) (f : Option (Filter α)) (cs : Nat)
    (hcs : 1 ≤ cs) :
    ((db.filter (matchesOpt f)).length = 3 * cs →
      ∃ c1 c2 c3, DataService._get_model_chunks db f (cs : Int) = some [c1, c2, c3]
        ∧ c1.length = cs ∧ c2.length = cs ∧ c3.length = cs
        ∧ c1 ++ c2 ++ c3 = db.filter (matchesOpt f))
    ∧ ((db.filter (matchesOpt f)).length = 3 * cs + 1 →
      ∃ c1 c2 c3 c4,
        DataService._get_model_chunks db f (cs : Int) = some [c1, c2, c3, c4]
        ∧ c1.length = cs ∧ c2.length = cs ∧ c3.length = cs ∧ c4.length = 1
        ∧ c1 ++ c2 ++ c3 ++ c4 = db.filter (matchesOpt f)) := by
  constructor
  · intro hlen
    refine ⟨(db.filter (matchesOpt f)).take cs,
      ((db.filter (matchesOpt f)).drop cs).take cs,
      ((db.filter (matchesOpt f)).drop cs).drop cs, ?_, ?_, ?_, ?_, ?_⟩
    · rw [chunks_pos db f cs hcs]
      rw [chunkify, dif_neg (by omega)]
      rw [chunkify, dif_neg (by simp only [List.length_drop]; omega)]
      rw [chunkify, dif_pos (Or.inl (by
        simp only [List.length_drop]; omega))]
    · simp only [List.length_take]; omega
    · simp only [List.length_take, List.length_drop]; omega
    · simp only [List.length_drop]; omega
    · rw [List.append_assoc, List.take_append_drop, List.take_append_drop]
  · intro hlen
    refine ⟨(db.filter (matchesOpt f)).take cs,
      ((db.filter (matchesOpt f)).drop cs).take cs,
      (((db.filter (matchesOpt f)).drop cs).drop cs).take cs,
      (((db.filter (matchesOpt f)).drop cs).drop cs).drop cs, ?_, ?_, ?_, ?_, ?_, ?_⟩
    · rw [chunks_pos db f cs hcs]
      rw [chunkify, dif_neg (by omega)]
      rw [chunkify, dif_neg (by simp only [List.length_drop]; omega)]
      rw [chunkify, dif_neg (by simp only [List.length_drop]; omega)]
      rw [chunkify, dif_pos (Or.inl (by
        simp only [List.length_drop]; omega))]
    · simp only [List.length_take]; omega
    · simp only [List.length_take, List.length_drop]; omega
    · simp only [List.length_take, List.length_drop]; omega
    · simp only [List.length_drop]; omega
    · rw [List.append_assoc, List.append_assoc, List.take_append_drop,
        List.take_append_drop, List.take_append_drop]

/-- One-step unfolding of the chunk generator at positive fuel. -/
theorem chunksAux_succ {α : Type} (db : List α) (f : Option (Filter α)) (cs : Int)
    (fuel : Nat) (page : Int) :
    DataService._get_model_chunksAux db f cs (fuel + 1) page =
      (if ((DataService.search db f none
            (some (Pagination.make page cs true))).length : Int) = cs + 1 then
        (DataService._get_model_chunksAux db f cs fuel (page + 1)).map
          (fun rest =>
            (DataService.search db f none
              (some (Pagination.make page cs true))).dropLast :: rest)
      else
        some [DataService.search db f none (some (Pagination.make page cs true))]) :=
  rfl

/-- One page of the chunked scan for a non-positive chunk size: the clamped
page size is 1, so the page is (matching rows).drop (page - 1) |>.take 2. -/
theorem search_page_neg {α : Type} (db : List α) (f : Option (Filter α)) (p : Int)
    (cs : Int) (hp : 1 ≤ p) (hcs : cs ≤ 0) :
    DataService.search db f none (some (Pagination.make p cs true)) =
      ((db.filter (matchesOpt f)).drop (p - 1).toNat).take 2 := by
  rw [search_page]
  have h1 : max p 1 = p := max_eq_left hp
  have h2 : max cs 1 = 1 := by omega
  rw [h1, h2, mul_one, show ((1 : Int) + 1).toNat = 2 from rfl]

/-- Claim C10 (amended): for every chunk_size ≤ 0 — except chunk_size = -1
with an empty matching set, where the generator never terminates — the
iterator stops after at most two pages, yielding only the first two matching
records: two empty chunks when chunk_size = 0 and exactly one record
matches, and the single chunk of the first min(2, m) matching records
otherwise, even when more records match. -/
theorem claim_C10 {α : Type} (db : List α) (f : Option (Filter α)) (cs : Int)
    (hcs : cs ≤ 0) (hex : ¬(cs = -1 ∧ db.filter (matchesOpt f) = [])) :
    DataService._get_model_chunks db f cs =
      some (if cs = 0 ∧ (db.filter (matchesOpt f)).length = 1 then [[], []]
            else [(db.filter (matchesOpt f)).take 2]) := by
  show DataService._get_model_chunksAux db f cs (db.length + 2) 1 = _
  have hfuel : db.length + 2 = (db.length + 1) + 1 := rfl
  rw [hfuel, chunksAux_succ]
  rw [search_page_neg db f 1 cs (le_refl 1) hcs]
  rw [show ((1 : Int) - 1).toNat = 0 from rfl, List.drop_zero]
  by_cases hc0 : cs = 0 ∧ (db.filter (matchesOpt f)).length = 1
  · obtain ⟨hcs0, hlen1⟩ := hc0
    subst hcs0
    have ht : ((db.filter (matchesOpt f)).take 2).length = 1 := by
      simp only [List.length_take]
      omega
    rw [if_pos (by rw [ht]; norm_num)]
    rw [chunksAux_succ]
    rw [show ((1 : Int) + 1) = 2 from rfl]
    rw [search_page_neg db f 2 0 (by norm_num) (by norm_num)]
    rw [show ((2 : Int) - 1).toNat = 1 from rfl]
    rw [List.drop_eq_nil_of_le (by omega)]
    rw [show (([] : List α).take 2) = [] from rfl]
    rw [if_neg (by norm_num)]
    rw [Option.map_some']
    have hdl : ((db.filter (matchesOpt f)).take 2).dropLast = [] := by
      rw [List.dropLast_eq_take, ht]
      simp
    rw [hdl]
    rw [if_pos ⟨rfl, hlen1⟩]
  · have hcond : ¬((((db.filter (matchesOpt f)).take 2).length : Int) = cs + 1) := by
      simp only [List.length_take]
      intro he
      rcases hLlen : (db.filter (matchesOpt f)).length with _ | n
      · have hnil : db.filter (matchesOpt f) = [] := List.length_eq_zero.mp hLlen
        rw [hLlen] at he
        have hm : cs = -1 := by push_cast at he; omega
        exact hex ⟨hm, hnil⟩
      · rcases n with _ | n
        · rw [hLlen] at he
          have hm : cs = 0 := by push_cast at he; omega
          exact hc0 ⟨hm, hLlen⟩
        · rw [hLlen] at he
          push_cast at he
          omega
    rw [if_neg hcond]
    rw [if_neg hc0]

/-- Witness for claim C10 (amended): chunk_size 0 with exactly one matching
record yields two empty chunks. -/
theorem claim_C10_wit :
    ((0 : Int) ≤ 0)
    ∧ ¬((0 : Int) = -1 ∧ [(5 : Int)].filter (matchesOpt (some posFilter)) = [])
    ∧ DataService._get_model_chunks [(5 : Int)] (some posFilter) 0 =
        some (if (0 : Int) = 0
                ∧ ([(5 : Int)].filter (matchesOpt (some posFilter))).length = 1
              then [[], []]
              else [([(5 : Int)].filter (matchesOpt (some posFilter))).take 2]) :=
  ⟨by norm_num, by decide,
   claim_C10 [(5 : Int)] (some posFilter) 0 (by norm_num) (by decide)⟩

/-- Witness for claim C3: chunk_size 1 over three matching records gives
three singleton chunks. -/
theorem claim_C3_wit :
    (([(1 : Int), 2, 3].filter (matchesOpt (some posFilter))).length = 3 * 1)
    ∧ (∃ c1 c2 c3,
        DataService._get_model_chunks [(1 : Int), 2, 3] (some posFilter)
          ((1 : Nat) : Int) = some [c1, c2, c3]
        ∧ c1.length = 1 ∧ c2.length = 1 ∧ c3.length = 1
        ∧ c1 ++ c2 ++ c3 = [(1 : Int), 2, 3].filter (matchesOpt (some posFilter))) :=
  ⟨by decide,
   (claim_C3 [(1 : Int), 2, 3] (some posFilter) 1 (by decide)).1 (by decide)⟩

end Pydaas
